import Mathlib

/-!
Verification of the generation-orchestration core of the JOCKER AI STUDIO
application (a KDP coloring-book generator).  The definitions below are a
shallow embedding of:

* `withRetry`, `generateBookPlan`, `getClosestAspectRatio`
  (src/services/gemini.ts, first variant, the one the claims cite);
* `handleError`, `handleGeneratePlan`, `processQueue`
  (src/App.tsx, first variant, lines 54-234);
* the per-job state transitions of `processQueue` and of the manual
  `handleRetryPage` action (src/App.tsx, second variant, lines 797-818).

JavaScript numbers are modelled as exact rationals extended with the IEEE
special values (`JsNum`), JavaScript error objects as a record of the three
projections the code actually reads (`JsError`), and the asynchronous batch
loop as a fuel-indexed state-transformer whose per-batch effects are the
sequentialisation of the `Promise.all` callbacks (the callbacks touch
disjoint per-page state except for the cancellation flag and the error cell,
whose updates commute up to which quota error is reported last).
-/

namespace JockerStudio

/-- Substring test on character lists: JavaScript's `String.includes`. -/
def listContainsSub (needle : List Char) : List Char → Bool
  | [] => needle.isPrefixOf []
  | c :: t => needle.isPrefixOf (c :: t) || listContainsSub needle t

/-- JavaScript `hay.includes(needle)`. -/
def strContains (hay needle : String) : Bool :=
  listContainsSub needle.data hay.data

/-- ASCII lowercase of one character (the only case change
`String.prototype.toLowerCase` performs on the ASCII-range strings the
source compares). -/
def lowerChar (c : Char) : Char :=
  if 65 ≤ c.toNat ∧ c.toNat ≤ 90 then Char.ofNat (c.toNat + 32) else c

/-- JavaScript `s.toLowerCase()` on ASCII-range strings. -/
def toLowerStr (s : String) : String :=
  String.mk (s.data.map lowerChar)

/-- A JavaScript error value, reduced to the three projections the source
reads: the first truthy of `error.status || error.code || error.error?.code`
(`none` when every link of the chain is falsy), the `message` property
(`none` when absent), and `JSON.stringify(error)`. -/
structure JsError where
  code : Option Nat
  message : Option String
  stringified : String
deriving DecidableEq, Repr

/-- JavaScript `m || fb` for an optional string `m`: the empty string is
falsy, so it also falls through to `fb`. -/
def truthyOr (m : Option String) (fb : String) : String :=
  match m with
  | some s => if s = "" then fb else s
  | none => fb

/-- gemini.ts line 16: `(error.message || JSON.stringify(error)).toLowerCase()`. -/
def errorMessage (e : JsError) : String :=
  toLowerStr (truthyOr e.message e.stringified)

/-- gemini.ts line 18: rate-limit classification. -/
def isRateLimited (e : JsError) : Bool :=
  decide (e.code = some 429) || strContains (errorMessage e) "429"
    || strContains (errorMessage e) "quota"

/-- gemini.ts line 19: overload classification. -/
def isOverloaded (e : JsError) : Bool :=
  decide (e.code = some 503) || strContains (errorMessage e) "503"
    || strContains (errorMessage e) "overloaded"

/-- The body of `withRetry`'s `for (let i = 0; i < maxRetries; i++)` loop
(gemini.ts lines 8-34).  The operation is modelled as a map from the attempt
index to that attempt's outcome; the result pairs the number of invocations
actually performed with the final outcome.  `fuel` carries the remaining
iteration count `maxRetries - i` (so `fuel = 0` is exactly the loop's exit
condition `i ≥ maxRetries`, where the trailing `throw lastError` throws the
still-undefined `lastError`, modelled as `Except.error none`); the retry
guard `i < maxRetries - 1` is kept verbatim. -/
def withRetryGo {α : Type} (op : Nat → Except JsError α) (maxRetries : Int) :
    Nat → Nat → Nat × Except (Option JsError) α
  | _, 0 => (0, .error none)
  | i, fuel + 1 =>
    match op i with
    | .ok v => (1, .ok v)
    | .error e =>
      if (isRateLimited e || isOverloaded e) && decide ((i : Int) < maxRetries - 1) then
        let r := withRetryGo op maxRetries (i + 1) fuel
        (r.1 + 1, r.2)
      else (1, .error (some e))

/-- `withRetry(operation, maxRetries, initialDelay)` (gemini.ts line 8),
with the backoff sleeps erased (they do not affect the result).  Returns
(number of invocations of `operation`, final outcome). -/
def withRetry {α : Type} (op : Nat → Except JsError α) (maxRetries : Int) :
    Nat × Except (Option JsError) α :=
  withRetryGo op maxRetries 0 maxRetries.toNat

lemma withRetryGo_step_retry {α : Type} (op : Nat → Except JsError α)
    (maxRetries : Int) (i fuel : Nat) (e : JsError) (hop : op i = .error e)
    (hc : ((isRateLimited e || isOverloaded e)
        && decide ((i : Int) < maxRetries - 1)) = true) :
    withRetryGo op maxRetries i (fuel + 1)
      = ((withRetryGo op maxRetries (i + 1) fuel).1 + 1,
         (withRetryGo op maxRetries (i + 1) fuel).2) := by
  simp only [withRetryGo, hop, hc, if_true]

lemma withRetryGo_allRateLimited {α : Type} (es : Nat → JsError)
    (hrl : ∀ i, isRateLimited (es i) = true) (maxRetries : Int) :
    ∀ (fuel i : Nat), 0 < fuel → (i : Int) + fuel = maxRetries →
      withRetryGo (α := α) (fun j => .error (es j)) maxRetries i fuel
        = (fuel, .error (some (es (i + fuel - 1)))) := by
  intro fuel
  induction fuel with
  | zero => intro i h0 _; omega
  | succ n ih =>
    intro i _ hM
    by_cases hn : n = 0
    · subst hn
      have hlt : ¬ ((i : Int) < maxRetries - 1) := by push_cast at hM; omega
      simp [withRetryGo, hrl i, hlt]
    · have hlt : (i : Int) < maxRetries - 1 := by push_cast at hM; omega
      have hcond : ((isRateLimited (es i) || isOverloaded (es i))
          && decide ((i : Int) < maxRetries - 1)) = true := by
        simp [hrl i, hlt]
      rw [withRetryGo_step_retry (fun j => .error (es j)) maxRetries i n (es i) rfl hcond,
        ih (i + 1) (by omega) (by push_cast at hM ⊢; omega)]
      have hidx : i + 1 + n - 1 = i + (n + 1) - 1 := by omega
      simp [hidx]

/-- Claim C2 (retry ceiling): for an operation failing on every invocation
with a rate-limited classification, `withRetry` with `maxRetries ≥ 1`
invokes it exactly `maxRetries` times and propagates the error produced by
the last attempt. -/
theorem claim_C2 {α : Type} (es : Nat → JsError)
    (hrl : ∀ i, isRateLimited (es i) = true) (maxRetries : Int)
    (hM : 1 ≤ maxRetries) :
    withRetry (α := α) (fun j => .error (es j)) maxRetries
      = (maxRetries.toNat, .error (some (es (maxRetries.toNat - 1)))) := by
  have h := withRetryGo_allRateLimited (α := α) es hrl maxRetries maxRetries.toNat 0
    (by omega) (by omega)
  simpa [withRetry] using h

/-- A concrete always-rate-limited error: HTTP 429 with a quota message. -/
def e429 : JsError :=
  { code := some 429, message := some "Resource has been exhausted (e.g. check quota).",
    stringified := "\x7b\x7d" }

lemma e429_rateLimited : isRateLimited e429 = true := by decide

/-- Witness for C2: three attempts for `maxRetries = 3`, final error from
the last attempt. -/
theorem claim_C2_witness :
    withRetry (α := Nat) (fun _ => .error e429) 3 = (3, .error (some e429)) := by
  have h := claim_C2 (α := Nat) (fun _ => e429) (fun _ => e429_rateLimited) 3 (by decide)
  simpa using h

/-- Claim C9 (non-retry classes): an operation whose first invocation fails
with an "Other"-classified error (neither rate-limited nor overloaded) is
invoked exactly once, and that error propagates immediately, for every
`maxRetries ≥ 1`. -/
theorem claim_C9 {α : Type} (op : Nat → Except JsError α) (e : JsError)
    (hop : op 0 = .error e) (hrl : isRateLimited e = false)
    (hov : isOverloaded e = false) (maxRetries : Int) (hM : 1 ≤ maxRetries) :
    withRetry op maxRetries = (1, .error (some e)) := by
  obtain ⟨n, hn⟩ : ∃ n, maxRetries.toNat = n + 1 := by
    refine ⟨maxRetries.toNat - 1, ?_⟩
    omega
  simp [withRetry, hn, withRetryGo, hop, hrl, hov]

/-- A concrete "Other"-classified error (a 400 with no quota wording). -/
def e400 : JsError :=
  { code := some 400, message := some "Invalid request payload.",
    stringified := "\x7b\x7d" }

/-- Witness for C9 at `maxRetries = 5`. -/
theorem claim_C9_witness :
    withRetry (α := Nat) (fun _ => .error e400) 5 = (1, .error (some e400)) :=
  claim_C9 (fun _ => .error e400) e400 rfl (by decide) (by decide) 5 (by decide)

/-- Counterexample for claim C5: with `maxRetries = 0` the operation (here
one that would succeed) is invoked zero times, not once — the `for` loop
guard `i < maxRetries` fails immediately and the trailing
`throw lastError` throws the still-undefined `lastError`. -/
theorem claim_C5_counterexample :
    withRetry (α := Nat) (fun _ => .ok 42) 0 = (0, .error none) ∧
      (withRetry (α := Nat) (fun _ => .ok 42) 0).1 ≠ 1 := by
  exact ⟨rfl, by decide⟩

/-- Claim C5 as amended: for every operation, calling `withRetry` with
`maxRetries ≤ 0` invokes the operation exactly zero times (in particular it
performs no retries) and fails by throwing the undefined `lastError`. -/
theorem claim_C5 {α : Type} (op : Nat → Except JsError α) (maxRetries : Int)
    (hM : maxRetries ≤ 0) :
    withRetry op maxRetries = (0, .error none) := by
  have h : maxRetries.toNat = 0 := by omega
  simp [withRetry, h, withRetryGo]

/-- Witness for the amended C5 at `maxRetries = -2`. -/
theorem claim_C5_witness :
    withRetry (α := Nat) (fun _ => .ok 7) (-2) = (0, .error none) :=
  claim_C5 (fun _ => .ok 7) (-2) (by decide)

/-! ## JavaScript numbers and `getClosestAspectRatio`

`getClosestAspectRatio` (gemini.ts lines 91-95) divides two user-supplied
numbers without guarding against zero, so the model keeps the IEEE special
values: a `JsNum` is an exact rational (finite doubles idealised as exact
rationals, which agrees with the source on every comparison it performs) or
one of `+∞`, `-∞`, `NaN`. -/

inductive JsNum : Type where
  | fin (q : ℚ)
  | posInf
  | negInf
  | nan
deriving DecidableEq, Repr

/-- IEEE-754 division as JavaScript's `/` performs it, on `JsNum`. -/
def jsDiv : JsNum → JsNum → JsNum
  | .nan, _ => .nan
  | _, .nan => .nan
  | .fin a, .fin b =>
      if b = 0 then (if a = 0 then .nan else if 0 < a then .posInf else .negInf)
      else .fin (a / b)
  | .fin _, .posInf => .fin 0
  | .fin _, .negInf => .fin 0
  | .posInf, .fin b => if 0 ≤ b then .posInf else .negInf
  | .negInf, .fin b => if 0 ≤ b then .negInf else .posInf
  | .posInf, .posInf => .nan
  | .posInf, .negInf => .nan
  | .negInf, .posInf => .nan
  | .negInf, .negInf => .nan

/-- IEEE-754 subtraction on `JsNum`. -/
def jsSub : JsNum → JsNum → JsNum
  | .nan, _ => .nan
  | _, .nan => .nan
  | .fin a, .fin b => .fin (a - b)
  | .fin _, .posInf => .negInf
  | .fin _, .negInf => .posInf
  | .posInf, .fin _ => .posInf
  | .negInf, .fin _ => .negInf
  | .posInf, .posInf => .nan
  | .posInf, .negInf => .posInf
  | .negInf, .posInf => .negInf
  | .negInf, .negInf => .nan

/-- IEEE-754 absolute value (`Math.abs`) on `JsNum`. -/
def jsAbs : JsNum → JsNum
  | .nan => .nan
  | .posInf => .posInf
  | .negInf => .posInf
  | .fin a => .fin |a|

/-- IEEE-754 `<` on `JsNum`: any comparison involving NaN is false. -/
def jsLt : JsNum → JsNum → Bool
  | .nan, _ => false
  | _, .nan => false
  | .fin a, .fin b => decide (a < b)
  | .fin _, .posInf => true
  | .fin _, .negInf => false
  | .posInf, .fin _ => false
  | .negInf, .fin _ => true
  | .posInf, .posInf => false
  | .posInf, .negInf => false
  | .negInf, .posInf => true
  | .negInf, .negInf => false

/-- The fixed bucket array of gemini.ts line 93 (ids with their values). -/
def supported : List (String × ℚ) :=
  [("1:1", 1), ("3:4", 3 / 4), ("4:3", 1333 / 1000),
   ("9:16", 9 / 16), ("16:9", 1777 / 1000)]

/-- JavaScript `Array.prototype.reduce` with no seed: the first element is
the initial accumulator (`d` is a dead default for the empty list, which
the source never hits). -/
def reduceNoSeed {α : Type} (f : α → α → α) (d : α) : List α → α
  | [] => d
  | x :: xs => xs.foldl f x

/-- `getClosestAspectRatio(width, height)` (gemini.ts lines 91-95). -/
def getClosestAspectRatio (width height : JsNum) : String :=
  let ratio := jsDiv width height
  (reduceNoSeed
    (fun prev curr =>
      if jsLt (jsAbs (jsSub (JsNum.fin curr.2) ratio)) (jsAbs (jsSub (JsNum.fin prev.2) ratio))
      then curr else prev)
    ("", 0) supported).1

@[simp] lemma jsSub_fin_fin (a b : ℚ) : jsSub (.fin a) (.fin b) = .fin (a - b) := rfl

@[simp] lemma jsAbs_fin (a : ℚ) : jsAbs (.fin a) = .fin |a| := rfl

@[simp] lemma jsLt_fin_fin (a b : ℚ) : jsLt (.fin a) (.fin b) = decide (a < b) := rfl

/-- Distance from a requested ratio to a bucket. -/
def bdist (r : ℚ) (b : String × ℚ) : ℚ := |b.2 - r|

set_option maxHeartbeats 2000000

/-- Claim C8 (closest aspect ratio): for positive width and height the
function returns the id of a bucket of the fixed set whose value minimises
the distance to `width / height`, with ties broken in favour of the
earliest bucket (every strictly earlier bucket is strictly farther), and in
particular 8.5 × 11 maps to `"3:4"`.  Determinism for identical inputs is
definitional (the embedding is a pure function). -/
theorem claim_C8 (w h : ℚ) (hw : 0 < w) (hh : 0 < h) :
    (∃ k, ∃ hk : k < supported.length,
      getClosestAspectRatio (.fin w) (.fin h) = (supported.get ⟨k, hk⟩).1 ∧
      (∀ b ∈ supported, bdist (w / h) (supported.get ⟨k, hk⟩) ≤ bdist (w / h) b) ∧
      (∀ b ∈ supported.take k, bdist (w / h) (supported.get ⟨k, hk⟩) < bdist (w / h) b)) ∧
    getClosestAspectRatio (.fin (17 / 2)) (.fin 11) = "3:4" := by
  constructor
  · have hne : h ≠ 0 := ne_of_gt hh
    simp only [getClosestAspectRatio, jsDiv, if_neg hne, supported, reduceNoSeed,
      List.foldl_cons, List.foldl_nil, jsSub_fin_fin, jsAbs_fin, jsLt_fin_fin,
      decide_eq_true_eq]
    split_ifs with h1 h2 h3 h4 h5 h6 h7 h8 h9 h10 h11 h12 h13 h14 h15 <;>
      (first
        | refine ⟨0, by norm_num, rfl, ?_, ?_⟩
        | refine ⟨1, by norm_num, rfl, ?_, ?_⟩
        | refine ⟨2, by norm_num, rfl, ?_, ?_⟩
        | refine ⟨3, by norm_num, rfl, ?_, ?_⟩
        | refine ⟨4, by norm_num, rfl, ?_, ?_⟩) <;>
      (intro b hb
       fin_cases hb <;> simp only [bdist, supported, List.get] <;> linarith)
  · simp only [getClosestAspectRatio, jsDiv, supported, reduceNoSeed,
      List.foldl_cons, List.foldl_nil, jsSub_fin_fin, jsAbs_fin, jsLt_fin_fin,
      if_neg (by norm_num : ¬((11 : ℚ) = 0)), decide_eq_true_eq]
    norm_num [abs_of_nonneg, abs_of_nonpos]

/-- Witness for C8 at the spec's own example, 8.5 × 11 inches. -/
theorem claim_C8_witness :
    getClosestAspectRatio (.fin (17 / 2)) (.fin 11) = "3:4" :=
  (claim_C8 (17 / 2) 11 (by norm_num) (by norm_num)).2

/-- `true` iff the value is an ordinary (finite) number. -/
def jsFinite : JsNum → Bool
  | .fin _ => true
  | _ => false

lemma getClosest_mem (w h : JsNum) :
    getClosestAspectRatio w h ∈ ["1:1", "3:4", "4:3", "9:16", "16:9"] := by
  simp only [getClosestAspectRatio, supported, reduceNoSeed, List.foldl_cons,
    List.foldl_nil]
  split_ifs <;> simp

lemma getClosest_nonfinite (w h : JsNum)
    (hnf : jsFinite (jsDiv w h) = false) :
    getClosestAspectRatio w h = "1:1" := by
  simp only [getClosestAspectRatio, supported, reduceNoSeed, List.foldl_cons,
    List.foldl_nil]
  generalize hd : jsDiv w h = r at hnf ⊢
  cases r <;> simp_all [jsFinite, jsSub, jsAbs, jsLt]

/-- Claim C10 (totality of the aspect-ratio helper): the function never
throws and always returns one of the five bucket ids; whenever the
unguarded division yields a non-finite ratio (NaN or ±∞) every distance
comparison is false, so the first bucket's id `"1:1"` is returned — in
particular for every width when `height = 0`. -/
theorem claim_C10 :
    (∀ w h : JsNum, getClosestAspectRatio w h ∈ ["1:1", "3:4", "4:3", "9:16", "16:9"]) ∧
    (∀ w h : JsNum, jsFinite (jsDiv w h) = false → getClosestAspectRatio w h = "1:1") ∧
    (∀ w : JsNum, getClosestAspectRatio w (.fin 0) = "1:1") := by
  refine ⟨getClosest_mem, fun w h => getClosest_nonfinite w h, fun w => ?_⟩
  apply getClosest_nonfinite
  cases w <;> simp [jsDiv, jsFinite] <;> split_ifs <;> simp [jsFinite]

/-- Witness for C10: NaN inputs hit the non-finite branch and yield `"1:1"`. -/
theorem claim_C10_witness :
    getClosestAspectRatio JsNum.nan JsNum.nan = "1:1" :=
  claim_C10.2.1 JsNum.nan JsNum.nan rfl

/-! ## The batch orchestrator (`processQueue`, App.tsx first variant)

Per-page job state and the orchestrator's state.  The app's page ids are
`page-${index}-${Date.now()}` strings whose distinguishing content is the
index, so ids are modelled as naturals.  The UI-only fields (`progress`,
`loading`, the cover image, which is produced by an independent best-effort
promise that only sets its own field and swallows its own errors) are
omitted: no claim mentions them.  The `Promise.all` of a batch is
sequentialised in batch order; the per-page callbacks update disjoint pages,
and the only shared cells they write (`isGeneratingImagesRef.current` and
the error state) receive the same values under every interleaving up to
which of several quota errors in one batch is reported last. -/

/-- Page lifecycle state (`PageDefinition.status`, types.ts). -/
inductive Status : Type where
  | pending
  | generating
  | completed
  | failed
deriving DecidableEq, Repr

/-- A page job: id, lifecycle state, and the generated image if any
(`PageDefinition`, types.ts, restricted to the fields the orchestrator
reads and writes). -/
structure QPage where
  id : Nat
  status : Status
  imageUrl : Option String
deriving DecidableEq, Repr

/-- The structured error surfaced to the caller (`setError` payload,
App.tsx line 57: `{message: string, isQuota?: boolean}`). -/
structure ErrInfo where
  message : String
  isQuota : Bool
deriving DecidableEq, Repr

/-- The `step` field of the app state (types.ts `GenerationState.step`). -/
inductive StepTag : Type where
  | input
  | planning
  | generating
  | review
deriving DecidableEq, Repr

/-- Orchestrator-visible state: the page list, the cooperative cancellation
flag `isGeneratingImagesRef.current`, the surfaced error, the step, and (a
proof artefact, not app state) the trace of dispatched batches in order,
each batch recorded as the list of dispatched page ids. -/
structure OrchState where
  pages : List QPage
  genFlag : Bool
  error : Option ErrInfo
  step : StepTag
  trace : List (List Nat)
deriving DecidableEq, Repr

/-- `{ ...p, status: 'generating' }` (App.tsx lines 176 and 801). -/
def pageDispatch (p : QPage) : QPage := { p with status := .generating }

/-- `{ ...p, status: 'completed', imageUrl }` (App.tsx lines 191 and 810). -/
def pageComplete (img : String) (p : QPage) : QPage :=
  { p with status := .completed, imageUrl := some img }

/-- `{ ...p, status: 'failed' }` (App.tsx lines 199 and 815): note the
spread keeps any existing `imageUrl`. -/
def pageFail (p : QPage) : QPage := { p with status := .failed }

/-- App.tsx line 81: `err.message || JSON.stringify(err)` (for non-string
errors; all errors reaching `handleError` here are objects). -/
def handleErrStr (e : JsError) : String := truthyOr e.message e.stringified

/-- App.tsx line 82: the error handler's own quota test — case-sensitive
substring matching on `handleErrStr`. -/
def handleErrorIsQuota (e : JsError) : Bool :=
  strContains (handleErrStr e) "RESOURCE_EXHAUSTED"
    || strContains (handleErrStr e) "429"
    || strContains (handleErrStr e) "quota"

/-- The `{message, isQuota}` value `handleError` stores (App.tsx 75-95). -/
def handleErrorInfo (e : JsError) : ErrInfo :=
  if handleErrorIsQuota e then
    { message := "Daily Generation Limit Reached. Please wait a moment or upgrade to VIP.",
      isQuota := true }
  else { message := handleErrStr e, isQuota := false }

/-- App.tsx line 204: the orchestrator's circuit-breaker test
`JSON.stringify(err).includes("429") || JSON.stringify(err).includes("RESOURCE_EXHAUSTED")`. -/
def isQuota429 (e : JsError) : Bool :=
  strContains e.stringified "429" || strContains e.stringified "RESOURCE_EXHAUSTED"

/-- App.tsx lines 174-182: mark every page of the batch `generating`. -/
def markGenerating (batch : List Nat) (ps : List QPage) : List QPage :=
  ps.map fun p => if p.id ∈ batch then pageDispatch p else p

/-- App.tsx lines 189-195: on success, the page becomes `completed` with
its image. -/
def setCompleted (pid : Nat) (img : String) (ps : List QPage) : List QPage :=
  ps.map fun p => if p.id = pid then pageComplete img p else p

/-- App.tsx line 199: on failure, the page becomes `failed`. -/
def setFailed (pid : Nat) (ps : List QPage) : List QPage :=
  ps.map fun p => if p.id = pid then pageFail p else p

/-- One page's callback inside the batch `Promise.all` (App.tsx 184-209):
success completes the page; failure fails it, and a quota-classified
failure additionally clears the generation flag and runs `handleError`
(which stores the structured error). -/
def processJob (out : Nat → Except JsError String) (pid : Nat)
    (s : OrchState) : OrchState :=
  match out pid with
  | .ok img => { s with pages := setCompleted pid img s.pages }
  | .error e =>
    let s1 := { s with pages := setFailed pid s.pages }
    if isQuota429 e then
      { s1 with genFlag := false, error := some (handleErrorInfo e) }
    else s1

/-- The whole batch `Promise.all`, sequentialised in batch order. -/
def processBatch (out : Nat → Except JsError String) (batch : List Nat)
    (s : OrchState) : OrchState :=
  batch.foldl (fun acc pid => processJob out pid acc) s

/-- App.tsx line 171: the ids of the batch dispatched next,
`pagesToProcess.filter(p => p.status === 'pending').slice(0, BATCH_SIZE)`
with `BATCH_SIZE = 2` (line 155). -/
def batchOf (s : OrchState) : List Nat :=
  ((s.pages.filter fun p => decide (p.status = .pending)).take 2).map fun p => p.id

/-- One iteration of the `while` loop body (App.tsx 171-220): mark the
batch `generating` (recording the dispatch in the trace) and run the batch. -/
def stepState (out : Nat → Except JsError String) (s : OrchState) : OrchState :=
  processBatch out (batchOf s)
    { s with pages := markGenerating (batchOf s) s.pages,
             trace := s.trace ++ [batchOf s] }

/-- The `while (pagesToProcess.some(pending) && isGeneratingImagesRef.current)`
loop of `processQueue` (App.tsx 170-221).  The structural `fuel` bounds the
number of iterations; every iteration settles at least one pending page, so
`pages.length` fuel is never exhausted before the guard fails. -/
def runLoop (out : Nat → Except JsError String) : Nat → OrchState → OrchState
  | 0, s => s
  | fuel + 1, s =>
    if (s.pages.any fun p => decide (p.status = .pending)) && s.genFlag then
      runLoop out fuel (stepState out s)
    else s

/-- App.tsx 225-233: after the loop (and the cover promise) settles, the
flag is cleared and, when every page is terminal and the step is still
`generating`, the step moves to `review` (the "batch complete" signal). -/
def finalize (s : OrchState) : OrchState :=
  let s1 : OrchState := { s with genFlag := false }
  if (s1.pages.all fun p =>
        decide (p.status = .completed) || decide (p.status = .failed))
      && decide (s1.step = .generating)
  then { s1 with step := .review } else s1

/-- `processQueue(initialState)` (App.tsx 154-234), with the per-page
synthesis outcome (the settled result of `generateColoringPage` after its
internal `withRetry`) supplied as `out`, keyed by page id. -/
def processQueue (out : Nat → Except JsError String) (s : OrchState) : OrchState :=
  finalize (runLoop out s.pages.length s)

/-- The initial orchestrator state `startImageGeneration` hands to
`processQueue` (App.tsx 141-152): flag raised, no error, step `generating`,
nothing dispatched yet. -/
def initOrch (ps : List QPage) : OrchState :=
  { pages := ps, genFlag := true, error := none, step := .generating, trace := [] }

/-- Manual single-page retry, first half (App.tsx 800-804): the page is
set back to `generating`. -/
def handleRetryStart (pid : Nat) (ps : List QPage) : List QPage :=
  ps.map fun p => if p.id = pid then pageDispatch p else p

/-- Manual single-page retry, second half (App.tsx 806-817): the settled
synthesis outcome completes or fails the page. -/
def handleRetryFinish (res : Except JsError String) (pid : Nat)
    (ps : List QPage) : List QPage :=
  match res with
  | .ok img => ps.map fun p => if p.id = pid then pageComplete img p else p
  | .error _ => ps.map fun p => if p.id = pid then pageFail p else p

/-- The per-page transitions a single job can undergo: the orchestrator's
automatic ones (dispatch of a pending page, success or failure of a
generating page, App.tsx 174-209) and the manual single-job retry, which
the UI offers only on `failed` pages (App.tsx 1331-1334) and which re-uses
the same three update shapes (App.tsx 797-818). -/
inductive PageStep : QPage → QPage → Prop where
  | dispatch (p : QPage) : p.status = .pending → PageStep p (pageDispatch p)
  | success (p : QPage) (img : String) :
      p.status = .generating → PageStep p (pageComplete img p)
  | failure (p : QPage) : p.status = .generating → PageStep p (pageFail p)
  | manualRetry (p : QPage) : p.status = .failed → PageStep p (pageDispatch p)

/-- Claim C7 (result-iff-completed): in every job state reachable from a
freshly created job (`pending`, no image) through the orchestrator's
automatic transitions and the manual single-job retry, the image payload is
present iff the job is `completed`; in particular it is absent for
`pending`, `generating` and `failed` jobs. -/
theorem claim_C7 (pid : Nat) (p : QPage)
    (hreach : Relation.ReflTransGen PageStep ⟨pid, .pending, none⟩ p) :
    (p.imageUrl.isSome = true ↔ p.status = .completed) ∧
      (p.status ≠ .completed → p.imageUrl = none) := by
  induction hreach with
  | refl => simp
  | tail h1 hstep ih =>
    cases hstep with
    | dispatch hq =>
      have hnone := ih.2 (by simp [hq])
      simp [pageDispatch, hnone]
    | success img hq => simp [pageComplete]
    | failure hq =>
      have hnone := ih.2 (by simp [hq])
      simp [pageFail, hnone]
    | manualRetry hq =>
      have hnone := ih.2 (by simp [hq])
      simp [pageDispatch, hnone]

/-! ### Decomposition of the batch loop

The per-state `processJob`/`processBatch` updates are maps over the page
list; the lemmas below decompose one whole loop iteration into a single
per-page function `iterUpdate`, which the loop inductions then reason
about. -/

/-- Per-page effect of one job callback (the function `setCompleted pid` or
`setFailed pid` applies at each page). -/
def jobPageUpdate (out : Nat → Except JsError String) (pid : Nat) (p : QPage) : QPage :=
  match out pid with
  | .ok img => if p.id = pid then pageComplete img p else p
  | .error _ => if p.id = pid then pageFail p else p

/-- The terminal page a dispatched page settles to. -/
def targetPage (out : Nat → Except JsError String) (p : QPage) : QPage :=
  match out p.id with
  | .ok img => pageComplete img p
  | .error _ => pageFail p

/-- Per-page effect of one whole loop iteration dispatching `batch`. -/
def iterUpdate (out : Nat → Except JsError String) (batch : List Nat) (p : QPage) : QPage :=
  if p.id ∈ batch then targetPage out p else p

lemma targetPage_id (out : Nat → Except JsError String) (p : QPage) :
    (targetPage out p).id = p.id := by
  cases h : out p.id <;> simp [targetPage, h, pageComplete, pageFail]

lemma targetPage_idem (out : Nat → Except JsError String) (p : QPage) :
    targetPage out (targetPage out p) = targetPage out p := by
  cases h : out p.id <;> simp [targetPage, h, pageComplete, pageFail]

lemma targetPage_dispatch (out : Nat → Except JsError String) (p : QPage) :
    targetPage out (pageDispatch p) = targetPage out p := by
  cases h : out p.id <;> simp [targetPage, h, pageDispatch, pageComplete, pageFail]

lemma targetPage_status (out : Nat → Except JsError String) (p : QPage) :
    (targetPage out p).status = .completed ∨ (targetPage out p).status = .failed := by
  cases h : out p.id <;> simp [targetPage, h, pageComplete, pageFail]

lemma iterUpdate_id (out : Nat → Except JsError String) (batch : List Nat) (p : QPage) :
    (iterUpdate out batch p).id = p.id := by
  by_cases h : p.id ∈ batch <;> simp [iterUpdate, h, targetPage_id]

lemma jobPageUpdate_eq (out : Nat → Except JsError String) (pid : Nat) (p : QPage) :
    jobPageUpdate out pid p = if p.id = pid then targetPage out p else p := by
  by_cases h : p.id = pid
  · subst h
    cases ho : out p.id <;> simp [jobPageUpdate, targetPage, ho]
  · cases ho : out pid <;> simp [jobPageUpdate, ho, h]

lemma foldl_jobPageUpdate (out : Nat → Except JsError String) :
    ∀ (batch : List Nat) (p : QPage),
      batch.foldl (fun q pid => jobPageUpdate out pid q) p
        = iterUpdate out batch p := by
  intro batch
  induction batch with
  | nil => intro p; simp [iterUpdate]
  | cons pid rest ih =>
    intro p
    rw [List.foldl_cons, ih, jobPageUpdate_eq]
    by_cases hid : p.id = pid
    · subst hid
      by_cases hrest : p.id ∈ rest <;>
        simp [iterUpdate, hrest, targetPage_id, targetPage_idem]
    · by_cases hrest : p.id ∈ rest <;>
        simp [iterUpdate, hid, hrest, List.mem_cons]

lemma processJob_pages (out : Nat → Except JsError String) (pid : Nat) (s : OrchState) :
    (processJob out pid s).pages = s.pages.map (jobPageUpdate out pid) := by
  cases h : out pid with
  | ok img =>
    simp only [processJob, h, setCompleted]
    exact List.map_congr_left fun p _ => by simp [jobPageUpdate, h]
  | error e =>
    simp only [processJob, h, setFailed]
    split <;> exact List.map_congr_left fun p _ => by simp [jobPageUpdate, h]

lemma processJob_step (out : Nat → Except JsError String) (pid : Nat) (s : OrchState) :
    (processJob out pid s).step = s.step := by
  cases h : out pid <;> simp [processJob, h] <;> split <;> rfl

lemma processJob_trace (out : Nat → Except JsError String) (pid : Nat) (s : OrchState) :
    (processJob out pid s).trace = s.trace := by
  cases h : out pid <;> simp [processJob, h] <;> split <;> rfl

lemma processJob_preserve (out : Nat → Except JsError String) (pid : Nat) (s : OrchState)
    (h : ∀ e, out pid = .error e → isQuota429 e = false) :
    (processJob out pid s).genFlag = s.genFlag ∧ (processJob out pid s).error = s.error := by
  cases ho : out pid with
  | ok img => simp [processJob, ho]
  | error e => simp [processJob, ho, h e ho]

lemma processJob_quota (out : Nat → Except JsError String) (pid : Nat) (s : OrchState)
    (e : JsError) (hout : out pid = .error e) (hq : isQuota429 e = true) :
    (processJob out pid s).genFlag = false ∧
      (processJob out pid s).error = some (handleErrorInfo e) := by
  simp [processJob, hout, hq]

lemma processBatch_pages (out : Nat → Except JsError String) :
    ∀ (batch : List Nat) (s : OrchState),
      (processBatch out batch s).pages = s.pages.map (iterUpdate out batch) := by
  intro batch
  induction batch with
  | nil =>
    intro s
    have h1 : List.map (iterUpdate out []) s.pages = s.pages := by
      rw [List.map_congr_left (g := id) (fun p _ => by simp [iterUpdate])]
      exact List.map_id s.pages
    simpa [processBatch] using h1.symm
  | cons pid rest ih =>
    intro s
    show (processBatch out rest (processJob out pid s)).pages = _
    rw [ih, processJob_pages, List.map_map]
    exact List.map_congr_left fun p _ => by
      rw [Function.comp_apply, ← foldl_jobPageUpdate out (pid :: rest) p,
        List.foldl_cons, foldl_jobPageUpdate]

lemma processBatch_step (out : Nat → Except JsError String) :
    ∀ (batch : List Nat) (s : OrchState), (processBatch out batch s).step = s.step := by
  intro batch
  induction batch with
  | nil => intro s; rfl
  | cons pid rest ih =>
    intro s
    show (processBatch out rest (processJob out pid s)).step = _
    rw [ih, processJob_step]

lemma processBatch_trace (out : Nat → Except JsError String) :
    ∀ (batch : List Nat) (s : OrchState), (processBatch out batch s).trace = s.trace := by
  intro batch
  induction batch with
  | nil => intro s; rfl
  | cons pid rest ih =>
    intro s
    show (processBatch out rest (processJob out pid s)).trace = _
    rw [ih, processJob_trace]

lemma processBatch_preserve (out : Nat → Except JsError String) :
    ∀ (batch : List Nat) (s : OrchState),
      (∀ pid ∈ batch, ∀ e, out pid = .error e → isQuota429 e = false) →
      (processBatch out batch s).genFlag = s.genFlag ∧
        (processBatch out batch s).error = s.error := by
  intro batch
  induction batch with
  | nil => intro s _; exact ⟨rfl, rfl⟩
  | cons pid rest ih =>
    intro s h
    have hj := processJob_preserve out pid s (h pid (by simp))
    have hr := ih (processJob out pid s) (fun q hq e he => h q (by simp [hq]) e he)
    exact ⟨hr.1.trans hj.1, hr.2.trans hj.2⟩

lemma processBatch_quota (out : Nat → Except JsError String) :
    ∀ (batch : List Nat) (s : OrchState),
      (∃ pid ∈ batch, ∃ e, out pid = .error e ∧ isQuota429 e = true) →
      (processBatch out batch s).genFlag = false ∧
        ∃ pid ∈ batch, ∃ e, out pid = .error e ∧ isQuota429 e = true ∧
          (processBatch out batch s).error = some (handleErrorInfo e) := by
  intro batch
  induction batch with
  | nil => intro s h; simp at h
  | cons pid rest ih =>
    intro s h
    by_cases hrest : ∃ q ∈ rest, ∃ e, out q = .error e ∧ isQuota429 e = true
    · obtain ⟨hflag, q, hqmem, e, hout, hq, herr⟩ := ih (processJob out pid s) hrest
      exact ⟨hflag, q, List.mem_cons_of_mem _ hqmem, e, hout, hq, herr⟩
    · obtain ⟨q, hqmem, e, hout, hq⟩ := h
      have hqpid : q = pid := by
        rcases List.mem_cons.mp hqmem with h1 | h1
        · exact h1
        · exact absurd ⟨q, h1, e, hout, hq⟩ hrest
      subst hqpid
      have hnoq : ∀ r ∈ rest, ∀ e', out r = .error e' → isQuota429 e' = false := by
        intro r hr e' he'
        by_contra hc
        exact hrest ⟨r, hr, e', he', by simpa using hc⟩
      have hj := processJob_quota out q s e hout hq
      have hp := processBatch_preserve out rest (processJob out q s) hnoq
      exact ⟨hp.1.trans hj.1, q, List.mem_cons_self _ _, e, hout, hq, hp.2.trans hj.2⟩

/-- Shorthand for the loop guard's pending test. -/
def pendPred : QPage → Bool := fun p => decide (p.status = .pending)

lemma stepState_pages (out : Nat → Except JsError String) (s : OrchState) :
    (stepState out s).pages = s.pages.map (iterUpdate out (batchOf s)) := by
  rw [stepState, processBatch_pages]
  show (markGenerating (batchOf s) s.pages).map (iterUpdate out (batchOf s)) = _
  rw [markGenerating, List.map_map]
  refine List.map_congr_left fun p _ => ?_
  simp only [Function.comp_apply]
  by_cases hp : p.id ∈ batchOf s
  · rw [if_pos hp]
    have hid : (pageDispatch p).id = p.id := rfl
    simp [iterUpdate, hid, hp, targetPage_dispatch]
  · rw [if_neg hp]

lemma stepState_trace (out : Nat → Except JsError String) (s : OrchState) :
    (stepState out s).trace = s.trace ++ [batchOf s] := by
  rw [stepState, processBatch_trace]

lemma stepState_step (out : Nat → Except JsError String) (s : OrchState) :
    (stepState out s).step = s.step := by
  rw [stepState, processBatch_step]

lemma batchOf_sub (s : OrchState) :
    ∀ pid ∈ batchOf s, ∃ p ∈ s.pages, p.id = pid ∧ p.status = .pending := by
  intro pid hpid
  obtain ⟨p, hp, rfl⟩ := List.mem_map.mp hpid
  have hp2 := List.mem_of_mem_take hp
  have hp3 := List.mem_filter.mp hp2
  exact ⟨p, hp3.1, rfl, by simpa using hp3.2⟩

lemma batchOf_first (s : OrchState) (h : ∃ p ∈ s.pages, p.status = .pending) :
    ∃ p ∈ s.pages, p.status = .pending ∧ p.id ∈ batchOf s := by
  obtain ⟨p, hp, hpend⟩ := h
  have hmem : p ∈ s.pages.filter fun q => decide (q.status = .pending) :=
    List.mem_filter.mpr ⟨hp, by simpa using hpend⟩
  cases hf : s.pages.filter fun q => decide (q.status = .pending) with
  | nil => rw [hf] at hmem; simp at hmem
  | cons q rest =>
    have hq : q ∈ s.pages.filter fun r => decide (r.status = .pending) := by
      rw [hf]; exact List.mem_cons_self _ _
    have hq2 := List.mem_filter.mp hq
    refine ⟨q, hq2.1, by simpa using hq2.2, ?_⟩
    apply List.mem_map_of_mem
    rw [hf]
    simp [List.take]

lemma countP_map_le {α : Type} (f : α → α) (pd : α → Bool) :
    ∀ ps : List α, (∀ p ∈ ps, pd (f p) = true → pd p = true) →
      (ps.map f).countP pd ≤ ps.countP pd := by
  intro ps
  induction ps with
  | nil => intro _; simp
  | cons a l ih =>
    intro h
    have hl := ih fun p hp => h p (List.mem_cons_of_mem _ hp)
    have ha := h a (List.mem_cons_self _ _)
    rw [List.map_cons, List.countP_cons, List.countP_cons]
    have hle : (if pd (f a) = true then 1 else 0) ≤ (if pd a = true then 1 else 0) := by
      by_cases hfa : pd (f a) = true
      · rw [if_pos hfa, if_pos (ha hfa)]
      · rw [if_neg hfa]
        exact Nat.zero_le _
    omega

lemma countP_map_lt {α : Type} (f : α → α) (pd : α → Bool) :
    ∀ ps : List α, (∀ p ∈ ps, pd (f p) = true → pd p = true) →
      ∀ x ∈ ps, pd x = true → pd (f x) = false →
        (ps.map f).countP pd < ps.countP pd := by
  intro ps
  induction ps with
  | nil => intro _ x hx; simp at hx
  | cons a l ih =>
    intro h x hx hpx hfx
    have hmono : ∀ p ∈ l, pd (f p) = true → pd p = true :=
      fun p hp => h p (List.mem_cons_of_mem _ hp)
    rw [List.map_cons, List.countP_cons, List.countP_cons]
    rcases List.mem_cons.mp hx with rfl | hxl
    · have hle := countP_map_le f pd l hmono
      rw [if_neg (by simp [hfx]), if_pos hpx]
      omega
    · have hlt := ih hmono x hxl hpx hfx
      have hle : (if pd (f a) = true then 1 else 0) ≤ (if pd a = true then 1 else 0) := by
        by_cases hfa : pd (f a) = true
        · rw [if_pos hfa, if_pos (h a (List.mem_cons_self _ _) hfa)]
        · rw [if_neg hfa]
          exact Nat.zero_le _
      omega

lemma iterUpdate_pend_mono (out : Nat → Except JsError String) (batch : List Nat)
    (p : QPage) (h : pendPred (iterUpdate out batch p) = true) : pendPred p = true := by
  by_cases hp : p.id ∈ batch
  · exfalso
    rw [iterUpdate, if_pos hp] at h
    rcases targetPage_status out p with ht | ht <;> simp [pendPred, ht] at h
  · rwa [iterUpdate, if_neg hp] at h

lemma stepState_pend_lt (out : Nat → Except JsError String) (s : OrchState)
    (hpend : ∃ p ∈ s.pages, p.status = .pending) :
    ((stepState out s).pages.countP pendPred) < s.pages.countP pendPred := by
  rw [stepState_pages]
  obtain ⟨p, hp, hpd, hpb⟩ := batchOf_first s hpend
  refine countP_map_lt _ _ _ (fun q hq => iterUpdate_pend_mono out _ q) p hp
    (by simp [pendPred, hpd]) ?_
  rw [iterUpdate, if_pos hpb]
  rcases targetPage_status out p with ht | ht <;> simp [pendPred, ht]

lemma runLoop_succ_true (out : Nat → Except JsError String) (fuel : Nat) (s : OrchState)
    (hg : ((s.pages.any fun p => decide (p.status = .pending)) && s.genFlag) = true) :
    runLoop out (fuel + 1) s = runLoop out fuel (stepState out s) := by
  simp only [runLoop, hg, if_true]

lemma runLoop_succ_false (out : Nat → Except JsError String) (fuel : Nat) (s : OrchState)
    (hg : ¬ ((s.pages.any fun p => decide (p.status = .pending)) && s.genFlag) = true) :
    runLoop out (fuel + 1) s = s := by
  simp only [runLoop, if_neg hg]

lemma runLoop_step (out : Nat → Except JsError String) :
    ∀ (fuel : Nat) (s : OrchState), (runLoop out fuel s).step = s.step := by
  intro fuel
  induction fuel with
  | zero => intro s; rfl
  | succ n ih =>
    intro s
    by_cases hg : ((s.pages.any fun p => decide (p.status = .pending)) && s.genFlag) = true
    · rw [runLoop_succ_true out n s hg, ih, stepState_step]
    · rw [runLoop_succ_false out n s hg]

lemma runLoop_flag_false (out : Nat → Except JsError String) (fuel : Nat)
    (s : OrchState) (h : s.genFlag = false) : runLoop out fuel s = s := by
  cases fuel with
  | zero => rfl
  | succ n => simp [runLoop, h]

lemma guard_false_no_pending (s : OrchState)
    (hg : ¬ ((s.pages.any fun p => decide (p.status = .pending)) && s.genFlag) = true)
    (hflag : s.genFlag = true) : ∀ p ∈ s.pages, p.status ≠ .pending := by
  intro p hp hpd
  exact hg (by simp [List.any_eq_true, hflag]; exact ⟨p, hp, hpd⟩)

lemma stepState_no_quota_preserve (out : Nat → Except JsError String) (s : OrchState)
    (hq : ∀ p ∈ s.pages, ∀ e, out p.id = .error e → isQuota429 e = false) :
    (stepState out s).genFlag = s.genFlag ∧ (stepState out s).error = s.error := by
  have hbq : ∀ pid ∈ batchOf s, ∀ e, out pid = .error e → isQuota429 e = false := by
    intro pid hpid e he
    obtain ⟨p, hp, hpeq, _⟩ := batchOf_sub s pid hpid
    exact hq p hp e (by rwa [hpeq])
  exact processBatch_preserve out (batchOf s) _ hbq

lemma stepState_quota_transfer (out : Nat → Except JsError String) (s : OrchState)
    (hq : ∀ p ∈ s.pages, ∀ e, out p.id = .error e → isQuota429 e = false) :
    ∀ p ∈ (stepState out s).pages, ∀ e, out p.id = .error e → isQuota429 e = false := by
  intro p hp e he
  rw [stepState_pages] at hp
  obtain ⟨q, hq2, rfl⟩ := List.mem_map.mp hp
  exact hq q hq2 e (by rwa [iterUpdate_id] at he)

lemma runLoop_no_pending (out : Nat → Except JsError String) :
    ∀ (fuel : Nat) (s : OrchState), s.genFlag = true →
      (∀ p ∈ s.pages, ∀ e, out p.id = .error e → isQuota429 e = false) →
      s.pages.countP pendPred ≤ fuel →
      ∀ p ∈ (runLoop out fuel s).pages, p.status ≠ .pending := by
  intro fuel
  induction fuel with
  | zero =>
    intro s _ _ hc p hp hpd
    have h0 : s.pages.countP pendPred = 0 := Nat.le_zero.mp hc
    have := List.countP_eq_zero.mp h0 p hp
    simp [pendPred, hpd] at this
  | succ n ih =>
    intro s hflag hq hc
    by_cases hg : ((s.pages.any fun p => decide (p.status = .pending)) && s.genFlag) = true
    · rw [runLoop_succ_true out n s hg]
      have hpend : ∃ p ∈ s.pages, p.status = .pending := by
        obtain ⟨hany, -⟩ := Bool.and_eq_true_iff.mp hg
        obtain ⟨p, hp, hpd⟩ := List.any_eq_true.mp hany
        exact ⟨p, hp, by simpa using hpd⟩
      refine ih (stepState out s) ?_ (stepState_quota_transfer out s hq) ?_
      · rw [(stepState_no_quota_preserve out s hq).1, hflag]
      · have := stepState_pend_lt out s hpend
        omega
    · rw [runLoop_succ_false out n s hg]
      intro p hp hpd
      exact guard_false_no_pending s hg hflag p hp hpd

lemma runLoop_no_generating (out : Nat → Except JsError String) :
    ∀ (fuel : Nat) (s : OrchState),
      (∀ p ∈ s.pages, p.status ≠ .generating) →
      ∀ p ∈ (runLoop out fuel s).pages, p.status ≠ .generating := by
  intro fuel
  induction fuel with
  | zero => intro s h; exact h
  | succ n ih =>
    intro s h
    by_cases hg : ((s.pages.any fun p => decide (p.status = .pending)) && s.genFlag) = true
    · rw [runLoop_succ_true out n s hg]
      refine ih (stepState out s) ?_
      intro p hp
      rw [stepState_pages] at hp
      obtain ⟨q, hq2, rfl⟩ := List.mem_map.mp hp
      by_cases hb : q.id ∈ batchOf s
      · rw [iterUpdate, if_pos hb]
        rcases targetPage_status out q with ht | ht <;> simp [ht]
      · rw [iterUpdate, if_neg hb]
        exact h q hq2
    · rw [runLoop_succ_false out n s hg]
      exact h

lemma finalize_pages (s : OrchState) : (finalize s).pages = s.pages := by
  rw [finalize]
  split <;> rfl

lemma finalize_error (s : OrchState) : (finalize s).error = s.error := by
  rw [finalize]
  split <;> rfl

lemma finalize_trace (s : OrchState) : (finalize s).trace = s.trace := by
  rw [finalize]
  split <;> rfl

lemma finalize_genFlag (s : OrchState) : (finalize s).genFlag = false := by
  rw [finalize]
  split <;> rfl

lemma finalize_step_review (s : OrchState)
    (hterm : ∀ p ∈ s.pages, p.status = .completed ∨ p.status = .failed)
    (hs : s.step = .generating) : (finalize s).step = .review := by
  have hcond : ((s.pages.all fun p =>
      decide (p.status = .completed) || decide (p.status = .failed))
        && decide (s.step = .generating)) = true := by
    rw [Bool.and_eq_true_iff]
    refine ⟨List.all_eq_true.mpr fun p hp => ?_, by simpa using hs⟩
    rcases hterm p hp with ht | ht <;> simp [ht]
  simp only [finalize]
  rw [if_pos hcond]

/-- Claim C3 (batch completeness): for a batch of page jobs, all initially
pending, with no cancellation (the flag starts raised and nothing external
lowers it in this run) and no quota-classified failure, after `processQueue`
settles every job is `completed` or `failed`, and the "batch complete"
signal — the transition to the `review` step — is reported iff every job's
state is terminal. -/
theorem claim_C3 (out : Nat → Except JsError String) (ps : List QPage)
    (hpend : ∀ p ∈ ps, p.status = .pending)
    (hq : ∀ p ∈ ps, ∀ e, out p.id = .error e → isQuota429 e = false) :
    (∀ p ∈ (processQueue out (initOrch ps)).pages,
        p.status = .completed ∨ p.status = .failed) ∧
      ((processQueue out (initOrch ps)).step = .review ↔
        ∀ p ∈ (processQueue out (initOrch ps)).pages,
          p.status = .completed ∨ p.status = .failed) := by
  have hrun : processQueue out (initOrch ps)
      = finalize (runLoop out ps.length (initOrch ps)) := rfl
  have h1 : ∀ p ∈ (runLoop out ps.length (initOrch ps)).pages, p.status ≠ .pending :=
    runLoop_no_pending out ps.length (initOrch ps) rfl hq (List.countP_le_length _)
  have h2 : ∀ p ∈ (runLoop out ps.length (initOrch ps)).pages, p.status ≠ .generating :=
    runLoop_no_generating out ps.length (initOrch ps)
      (fun p hp => by rw [hpend p hp]; intro hcon; cases hcon)
  have hterm : ∀ p ∈ (runLoop out ps.length (initOrch ps)).pages,
      p.status = .completed ∨ p.status = .failed := by
    intro p hp
    cases hst : p.status with
    | pending => exact absurd hst (h1 p hp)
    | generating => exact absurd hst (h2 p hp)
    | completed => exact Or.inl rfl
    | failed => exact Or.inr rfl
  have hstep : (runLoop out ps.length (initOrch ps)).step = .generating :=
    runLoop_step out ps.length (initOrch ps)
  constructor
  · intro p hp
    rw [hrun, finalize_pages] at hp
    exact hterm p hp
  · constructor
    · intro _ p hp
      rw [hrun, finalize_pages] at hp
      exact hterm p hp
    · intro _
      rw [hrun]
      exact finalize_step_review _ hterm hstep

/-- A freshly created pending page job with index `i` (App.tsx 121-126). -/
def mkPage (i : Nat) : QPage := { id := i, status := .pending, imageUrl := none }

/-- Witness for C3: a three-page batch where the second page fails with a
non-quota error settles with every page terminal and the step at `review`. -/
theorem claim_C3_witness :
    (∀ p ∈ (processQueue
        (fun pid => if pid = 1 then .error e400 else .ok "img")
        (initOrch [mkPage 0, mkPage 1, mkPage 2])).pages,
          p.status = .completed ∨ p.status = .failed) ∧
      ((processQueue
          (fun pid => if pid = 1 then .error e400 else .ok "img")
          (initOrch [mkPage 0, mkPage 1, mkPage 2])).step = .review ↔
        ∀ p ∈ (processQueue
            (fun pid => if pid = 1 then .error e400 else .ok "img")
            (initOrch [mkPage 0, mkPage 1, mkPage 2])).pages,
          p.status = .completed ∨ p.status = .failed) := by
  refine claim_C3 _ _ (by intro p hp; fin_cases hp <;> rfl) ?_
  intro p hp e he
  fin_cases hp <;> simp [mkPage] at he
  rw [← he]
  decide

lemma stepState_undispatched (out : Nat → Except JsError String) (s : OrchState)
    (hI : ∀ p ∈ s.pages, p.id ∉ s.trace.flatten → p.status = .pending) :
    ∀ p ∈ (stepState out s).pages, p.id ∉ (stepState out s).trace.flatten →
      p.status = .pending := by
  intro p hp hnj
  rw [stepState_pages] at hp
  obtain ⟨q, hq, rfl⟩ := List.mem_map.mp hp
  rw [stepState_trace, List.flatten_append, iterUpdate_id] at hnj
  have hnb : q.id ∉ batchOf s := fun hc =>
    hnj (List.mem_append_right _ (by simpa using hc))
  rw [iterUpdate, if_neg hnb]
  exact hI q hq fun hc => hnj (List.mem_append_left _ hc)

lemma runLoop_breaker (out : Nat → Except JsError String) :
    ∀ (fuel : Nat) (s : OrchState), s.genFlag = true →
      (∀ b ∈ s.trace, ∀ pid ∈ b, ∀ e, out pid = .error e → isQuota429 e = false) →
      (∀ p ∈ s.pages, p.id ∉ s.trace.flatten → p.status = .pending) →
      (∃ p ∈ s.pages, p.status = .pending ∧
        ∃ e, out p.id = .error e ∧ isQuota429 e = true) →
      s.pages.countP pendPred ≤ fuel →
      (runLoop out fuel s).genFlag = false ∧
        (∀ b ∈ (runLoop out fuel s).trace.dropLast, ∀ pid ∈ b, ∀ e,
            out pid = .error e → isQuota429 e = false) ∧
        (∀ p ∈ (runLoop out fuel s).pages,
            p.id ∉ (runLoop out fuel s).trace.flatten → p.status = .pending) ∧
        (∃ e, isQuota429 e = true ∧
            (∃ pid ∈ (runLoop out fuel s).trace.flatten, out pid = .error e) ∧
            (runLoop out fuel s).error = some (handleErrorInfo e)) := by
  intro fuel
  induction fuel with
  | zero =>
    intro s _ _ _ hqp hc
    exfalso
    obtain ⟨p, hp, hpd, -⟩ := hqp
    have h0 : s.pages.countP pendPred = 0 := Nat.le_zero.mp hc
    have := List.countP_eq_zero.mp h0 p hp
    simp [pendPred, hpd] at this
  | succ n ih =>
    intro s hflag htr hI hqp hc
    have hpend : ∃ p ∈ s.pages, p.status = .pending := by
      obtain ⟨p, hp, hpd, -⟩ := hqp
      exact ⟨p, hp, hpd⟩
    have hg : ((s.pages.any fun p => decide (p.status = .pending)) && s.genFlag) = true := by
      rw [Bool.and_eq_true_iff]
      refine ⟨List.any_eq_true.mpr ?_, hflag⟩
      obtain ⟨p, hp, hpd⟩ := hpend
      exact ⟨p, hp, by simpa using hpd⟩
    rw [runLoop_succ_true out n s hg]
    by_cases hquota : ∃ pid ∈ batchOf s, ∃ e, out pid = .error e ∧ isQuota429 e = true
    · -- the breaker fires in this batch: the loop stops here
      obtain ⟨hflag2, pid, hpidb, e, hout, hqe, herr⟩ :=
        processBatch_quota out (batchOf s)
          { s with pages := markGenerating (batchOf s) s.pages,
                   trace := s.trace ++ [batchOf s] } hquota
      have hstep2 : (stepState out s).genFlag = false := hflag2
      rw [runLoop_flag_false out n _ hstep2]
      refine ⟨hstep2, ?_, stepState_undispatched out s hI, e, hqe, ⟨pid, ?_, hout⟩, herr⟩
      · intro b hb
        rw [stepState_trace] at hb
        rw [List.dropLast_concat] at hb
        exact htr b hb
      · rw [stepState_trace, List.flatten_append]
        exact List.mem_append_right _ (by simpa using hpidb)
    · -- the batch is quota-free: the flag survives and the loop recurses
      have hqf : ∀ pid ∈ batchOf s, ∀ e, out pid = .error e → isQuota429 e = false := by
        intro pid hpid e he
        by_contra hcon
        exact hquota ⟨pid, hpid, e, he, by simpa using hcon⟩
      have hpres := processBatch_preserve out (batchOf s)
        { s with pages := markGenerating (batchOf s) s.pages,
                 trace := s.trace ++ [batchOf s] } hqf
      refine ih (stepState out s) ?_ ?_ (stepState_undispatched out s hI) ?_ ?_
      · rw [stepState, hpres.1]
        exact hflag
      · intro b hb
        rw [stepState_trace] at hb
        rcases List.mem_append.mp hb with hb | hb
        · exact htr b hb
        · have hbe : b = batchOf s := by simpa using hb
          rw [hbe]
          exact hqf
      · obtain ⟨p, hp, hpd, e, hout, hqe⟩ := hqp
        have hnb : p.id ∉ batchOf s := fun hcon =>
          hquota ⟨p.id, hcon, e, hout, hqe⟩
        refine ⟨iterUpdate out (batchOf s) p, ?_, ?_⟩
        · rw [stepState_pages]
          exact List.mem_map_of_mem _ hp
        · rw [iterUpdate, if_neg hnb]
          exact ⟨hpd, e, hout, hqe⟩
      · have := stepState_pend_lt out s hpend
        omega

lemma runLoop_ids (out : Nat → Except JsError String) :
    ∀ (fuel : Nat) (s : OrchState),
      (runLoop out fuel s).pages.map (fun p => p.id) = s.pages.map fun p => p.id := by
  intro fuel
  induction fuel with
  | zero => intro s; rfl
  | succ n ih =>
    intro s
    by_cases hg : ((s.pages.any fun p => decide (p.status = .pending)) && s.genFlag) = true
    · rw [runLoop_succ_true out n s hg, ih, stepState_pages, List.map_map]
      exact List.map_congr_left fun p _ => by
        simp [Function.comp_apply, iterUpdate_id]
    · rw [runLoop_succ_false out n s hg]

lemma runLoop_mem_id (out : Nat → Except JsError String) (fuel : Nat) (s : OrchState)
    (p : QPage) (hp : p ∈ s.pages) :
    ∃ q ∈ (runLoop out fuel s).pages, q.id = p.id := by
  have hmem : p.id ∈ (runLoop out fuel s).pages.map fun q => q.id := by
    rw [runLoop_ids]
    exact List.mem_map_of_mem _ hp
  obtain ⟨q, hq, hqe⟩ := List.mem_map.mp hmem
  exact ⟨q, hq, hqe⟩

lemma runLoop_frozen (out : Nat → Except JsError String) (x : Nat) (st : Status)
    (u : Option String) (hst : st ≠ .pending) :
    ∀ (fuel : Nat) (s : OrchState),
      (∀ p ∈ s.pages, p.id = x → p.status = st ∧ p.imageUrl = u) →
      ∀ p ∈ (runLoop out fuel s).pages, p.id = x → p.status = st ∧ p.imageUrl = u := by
  intro fuel
  induction fuel with
  | zero => intro s h; exact h
  | succ n ih =>
    intro s h
    by_cases hg : ((s.pages.any fun p => decide (p.status = .pending)) && s.genFlag) = true
    · rw [runLoop_succ_true out n s hg]
      refine ih (stepState out s) ?_
      intro p hp hpx
      rw [stepState_pages] at hp
      obtain ⟨q, hq, rfl⟩ := List.mem_map.mp hp
      have hqx : q.id = x := by rwa [iterUpdate_id] at hpx
      have hnb : q.id ∉ batchOf s := by
        intro hcon
        obtain ⟨r, hr, hrid, hrpend⟩ := batchOf_sub s q.id hcon
        have hrst := (h r hr (hrid.trans hqx)).1
        rw [hrpend] at hrst
        exact hst hrst.symm
      rw [iterUpdate, if_neg hnb]
      exact h q hq hqx
    · rw [runLoop_succ_false out n s hg]
      exact h

lemma runLoop_trace_len (out : Nat → Except JsError String) :
    ∀ (fuel : Nat) (s : OrchState),
      s.trace.length ≤ (runLoop out fuel s).trace.length := by
  intro fuel
  induction fuel with
  | zero => intro s; exact Nat.le_refl _
  | succ n ih =>
    intro s
    by_cases hg : ((s.pages.any fun p => decide (p.status = .pending)) && s.genFlag) = true
    · rw [runLoop_succ_true out n s hg]
      have h1 := ih (stepState out s)
      rw [stepState_trace] at h1
      simp only [List.length_append, List.length_cons, List.length_nil] at h1
      omega
    · rw [runLoop_succ_false out n s hg]

lemma runLoop_trace_head (out : Nat → Except JsError String) :
    ∀ (fuel : Nat) (s : OrchState), s.trace ≠ [] →
      (runLoop out fuel s).trace.head? = s.trace.head? := by
  intro fuel
  induction fuel with
  | zero => intro s _; rfl
  | succ n ih =>
    intro s hne
    by_cases hg : ((s.pages.any fun p => decide (p.status = .pending)) && s.genFlag) = true
    · rw [runLoop_succ_true out n s hg]
      have h1 := ih (stepState out s) (by rw [stepState_trace]; simp)
      rw [h1, stepState_trace]
      cases ht : s.trace with
      | nil => exact absurd ht hne
      | cons b t => simp
    · rw [runLoop_succ_false out n s hg]

/-- Counterexample input for C1: an error whose JSON serialisation carries
a 429 status (so the orchestrator's circuit-breaker check classifies it as
quota-exhausted) while its `message` property is a plain `"boom"` — exactly
the shape of `const e = new Error("boom"); e.status = 429` after
`JSON.stringify`. -/
def eQuota : JsError :=
  { code := some 429, message := some "boom",
    stringified := "\x7b\"status\":429\x7d" }

/-- Outcomes for the C1 counterexample run: page 0 fails with `eQuota`,
every other page succeeds. -/
def outC1 : Nat → Except JsError String :=
  fun pid => if pid = 0 then .error eQuota else .ok "img"

/-- Counterexample for claim C1: on the three-page batch below, page 0's
failure is quota-classified and the breaker fires — the trace stops at the
single batch `[0, 1]` and page 2 stays `pending` — but the structured error
the caller receives has `isQuota = false`, because `handleError` classifies
by `err.message` (`"boom"`), not by the serialisation the breaker used. -/
theorem claim_C1_counterexample :
    isQuota429 eQuota = true ∧
      (processQueue outC1 (initOrch [mkPage 0, mkPage 1, mkPage 2])).trace = [[0, 1]] ∧
      (∃ p ∈ (processQueue outC1 (initOrch [mkPage 0, mkPage 1, mkPage 2])).pages,
        p.id = 2 ∧ p.status = .pending) ∧
      (processQueue outC1 (initOrch [mkPage 0, mkPage 1, mkPage 2])).error
        = some { message := "boom", isQuota := false } := by
  refine ⟨by decide, rfl, ⟨mkPage 2, by decide, rfl, rfl⟩, rfl⟩

/-- Claim C1 as amended: during a batch run from all-pending jobs, if some
job's outcome is a failure the orchestrator's quota check classifies as
quota-exhausted (its JSON serialisation contains `"429"` or
`"RESOURCE_EXHAUSTED"`), then the run stops dispatching: the flag ends
lowered, every batch before the last is quota-free (no batch is dispatched
after the one containing the quota failure), every job never dispatched is
still `pending`, and the caller receives the structured error `handleError`
builds from one of the quota-classified failures — whose `isQuota` flag is
computed from the error's `message` (falling back to the serialisation only
when the message is absent or empty), and so can be `false`. -/
theorem claim_C1 (out : Nat → Except JsError String) (ps : List QPage)
    (hpend : ∀ p ∈ ps, p.status = .pending)
    (hquota : ∃ p ∈ ps, ∃ e, out p.id = .error e ∧ isQuota429 e = true) :
    (processQueue out (initOrch ps)).genFlag = false ∧
      (∀ b ∈ (processQueue out (initOrch ps)).trace.dropLast, ∀ pid ∈ b, ∀ e,
          out pid = .error e → isQuota429 e = false) ∧
      (∀ p ∈ (processQueue out (initOrch ps)).pages,
          p.id ∉ (processQueue out (initOrch ps)).trace.flatten → p.status = .pending) ∧
      (∃ e, isQuota429 e = true ∧
          (∃ pid ∈ (processQueue out (initOrch ps)).trace.flatten, out pid = .error e) ∧
          (processQueue out (initOrch ps)).error = some (handleErrorInfo e)) := by
  obtain ⟨hflag, htr, hI, hex⟩ := runLoop_breaker out ps.length (initOrch ps) rfl
    (by intro b hb; simp [initOrch] at hb)
    (fun p hp _ => hpend p hp)
    (by
      obtain ⟨p, hp, e, hout, hq⟩ := hquota
      exact ⟨p, hp, hpend p hp, e, hout, hq⟩)
    (List.countP_le_length _)
  have hrun : processQueue out (initOrch ps)
      = finalize (runLoop out ps.length (initOrch ps)) := rfl
  refine ⟨by rw [hrun, finalize_genFlag], ?_, ?_, ?_⟩
  · rw [hrun, finalize_trace]
    exact htr
  · rw [hrun, finalize_pages, finalize_trace]
    exact hI
  · rw [hrun, finalize_trace, finalize_error]
    exact hex

/-- Witness for the amended C1, at the counterexample's own input. -/
theorem claim_C1_witness :
    (processQueue outC1 (initOrch [mkPage 0, mkPage 1, mkPage 2])).genFlag = false ∧
      (∀ b ∈ (processQueue outC1 (initOrch [mkPage 0, mkPage 1, mkPage 2])).trace.dropLast,
        ∀ pid ∈ b, ∀ e, outC1 pid = .error e → isQuota429 e = false) ∧
      (∀ p ∈ (processQueue outC1 (initOrch [mkPage 0, mkPage 1, mkPage 2])).pages,
          p.id ∉ (processQueue outC1 (initOrch [mkPage 0, mkPage 1, mkPage 2])).trace.flatten →
            p.status = .pending) ∧
      (∃ e, isQuota429 e = true ∧
          (∃ pid ∈ (processQueue outC1 (initOrch [mkPage 0, mkPage 1, mkPage 2])).trace.flatten,
            outC1 pid = .error e) ∧
          (processQueue outC1 (initOrch [mkPage 0, mkPage 1, mkPage 2])).error
            = some (handleErrorInfo e)) :=
  claim_C1 outC1 [mkPage 0, mkPage 1, mkPage 2]
    (by intro p hp; fin_cases hp <;> rfl)
    ⟨mkPage 0, by decide, eQuota, rfl, by decide⟩

/-- Claim C4 (failure isolation): in a batch of size 2 whose job A fails
with a per-job-fatal non-quota error while its sibling job B succeeds, after
the run settles A is `failed`, B is `completed` with its result set, and the
orchestrator went on to dispatch a next batch (the trace has at least two
batches, the first being exactly `[A, B]`). -/
theorem claim_C4 (out : Nat → Except JsError String) (pA pB : QPage)
    (rest : List QPage) (eF : JsError) (img : String)
    (hpend : ∀ p ∈ pA :: pB :: rest, p.status = .pending)
    (hnodup : ((pA :: pB :: rest).map fun p => p.id).Nodup)
    (hne : rest ≠ [])
    (houtA : out pA.id = .error eF) (hqF : isQuota429 eF = false)
    (houtB : out pB.id = .ok img) :
    (∃ p ∈ (processQueue out (initOrch (pA :: pB :: rest))).pages, p.id = pA.id) ∧
      (∀ p ∈ (processQueue out (initOrch (pA :: pB :: rest))).pages,
        p.id = pA.id → p.status = .failed) ∧
      (∃ p ∈ (processQueue out (initOrch (pA :: pB :: rest))).pages, p.id = pB.id) ∧
      (∀ p ∈ (processQueue out (initOrch (pA :: pB :: rest))).pages,
        p.id = pB.id → p.status = .completed ∧ p.imageUrl = some img) ∧
      2 ≤ (processQueue out (initOrch (pA :: pB :: rest))).trace.length ∧
      (processQueue out (initOrch (pA :: pB :: rest))).trace.head? = some [pA.id, pB.id] := by
  obtain ⟨r0, rest', rfl⟩ : ∃ r0 rest', rest = r0 :: rest' := by
    cases rest with
    | nil => exact absurd rfl hne
    | cons a t => exact ⟨a, t, rfl⟩
  set ps := pA :: pB :: r0 :: rest' with hps
  set s0 := initOrch ps with hs0
  have hA : pA.status = .pending := hpend pA (by simp [hps])
  have hB : pB.status = .pending := hpend pB (by simp [hps])
  have hmemA : pA ∈ ps := by simp [hps]
  have hmemB : pB ∈ ps := by simp [hps]
  have hmemR : r0 ∈ ps := by simp [hps]
  have hr0pend : r0.status = .pending := hpend r0 hmemR
  have hnd := hnodup
  simp only [hps, List.map_cons, List.nodup_cons, List.mem_cons, List.mem_map,
    not_or, not_exists, not_and] at hnd
  have hr0A : r0.id ≠ pA.id := fun hcon => hnd.1.2.1 hcon.symm
  have hr0B : r0.id ≠ pB.id := fun hcon => hnd.2.1.1 hcon.symm
  -- the first dispatched batch is exactly [A, B]
  have hbatch : batchOf s0 = [pA.id, pB.id] := by
    simp [batchOf, hs0, initOrch, hps, List.filter_cons, hA, hB, List.take]
  have hg0 : ((s0.pages.any fun p => decide (p.status = .pending)) && s0.genFlag) = true := by
    rw [Bool.and_eq_true_iff]
    exact ⟨List.any_eq_true.mpr ⟨pA, by simp [hs0, initOrch, hps], by simpa using hA⟩, rfl⟩
  have hqf : ∀ pid ∈ batchOf s0, ∀ e, out pid = .error e → isQuota429 e = false := by
    rw [hbatch]
    intro pid hpid e he
    rcases List.mem_cons.mp hpid with rfl | hpid
    · rw [houtA] at he
      cases he
      exact hqF
    · have hpe : pid = pB.id := by simpa using hpid
      subst hpe
      rw [houtB] at he
      cases he
  set s1 := stepState out s0 with hs1
  have hunfold : runLoop out ps.length s0
      = runLoop out ((r0 :: rest').length + 1) s1 := by
    have hlen : ps.length = (r0 :: rest').length + 1 + 1 := by simp [hps]
    rw [hlen]
    exact runLoop_succ_true out ((r0 :: rest').length + 1) s0 hg0
  have hs1pages : s1.pages = ps.map (iterUpdate out [pA.id, pB.id]) := by
    rw [hs1, stepState_pages, hbatch]
    rfl
  have hs1flag : s1.genFlag = true := by
    rw [hs1, stepState, (processBatch_preserve out (batchOf s0) _ hqf).1]
    rfl
  have hs1trace : s1.trace = [[pA.id, pB.id]] := by
    rw [hs1, stepState_trace, hbatch]
    rfl
  -- after the first batch, A-pages are failed and B-pages completed
  have hA1 : ∀ p ∈ s1.pages, p.id = pA.id → p.status = .failed ∧ p.imageUrl = pA.imageUrl := by
    intro p hp hpx
    rw [hs1pages] at hp
    obtain ⟨q, hq, rfl⟩ := List.mem_map.mp hp
    have hqx : q.id = pA.id := by rwa [iterUpdate_id] at hpx
    have hqA : q = pA := List.inj_on_of_nodup_map hnodup hq hmemA hqx
    subst hqA
    rw [iterUpdate, if_pos (by rw [hqx]; simp)]
    simp [targetPage, houtA, pageFail]
  have hB1 : ∀ p ∈ s1.pages, p.id = pB.id → p.status = .completed ∧ p.imageUrl = some img := by
    intro p hp hpx
    rw [hs1pages] at hp
    obtain ⟨q, hq, rfl⟩ := List.mem_map.mp hp
    have hqx : q.id = pB.id := by rwa [iterUpdate_id] at hpx
    have hqB : q = pB := List.inj_on_of_nodup_map hnodup hq hmemB hqx
    subst hqB
    rw [iterUpdate, if_pos (by rw [hqx]; simp)]
    simp [targetPage, houtB, pageComplete]
  have hfinalA := runLoop_frozen out pA.id .failed pA.imageUrl (by decide)
    ((r0 :: rest').length + 1) s1 hA1
  have hfinalB := runLoop_frozen out pB.id .completed (some img) (by decide)
    ((r0 :: rest').length + 1) s1 hB1
  have hexA : ∃ q ∈ (runLoop out ((r0 :: rest').length + 1) s1).pages, q.id = pA.id := by
    obtain ⟨q, hq, hqe⟩ := runLoop_mem_id out ((r0 :: rest').length + 1) s1
      (iterUpdate out [pA.id, pB.id] pA) (by rw [hs1pages]; exact List.mem_map_of_mem _ hmemA)
    exact ⟨q, hq, by rw [hqe, iterUpdate_id]⟩
  have hexB : ∃ q ∈ (runLoop out ((r0 :: rest').length + 1) s1).pages, q.id = pB.id := by
    obtain ⟨q, hq, hqe⟩ := runLoop_mem_id out ((r0 :: rest').length + 1) s1
      (iterUpdate out [pA.id, pB.id] pB) (by rw [hs1pages]; exact List.mem_map_of_mem _ hmemB)
    exact ⟨q, hq, by rw [hqe, iterUpdate_id]⟩
  -- a second batch is dispatched: r0 is still pending and the flag is raised
  have hr0in1 : iterUpdate out [pA.id, pB.id] r0 = r0 := by
    rw [iterUpdate, if_neg]
    simp [hr0A, hr0B]
  have hg1 : ((s1.pages.any fun p => decide (p.status = .pending)) && s1.genFlag) = true := by
    rw [Bool.and_eq_true_iff]
    refine ⟨List.any_eq_true.mpr ⟨r0, ?_, by simpa using hr0pend⟩, hs1flag⟩
    rw [hs1pages]
    exact hr0in1 ▸ List.mem_map_of_mem _ hmemR
  have hunfold2 : runLoop out ((r0 :: rest').length + 1) s1
      = runLoop out (r0 :: rest').length (stepState out s1) :=
    runLoop_succ_true out (r0 :: rest').length s1 hg1
  have hs2trace : (stepState out s1).trace = [[pA.id, pB.id], batchOf s1] := by
    rw [stepState_trace, hs1trace]
    rfl
  have htlen : 2 ≤ (runLoop out ((r0 :: rest').length + 1) s1).trace.length := by
    rw [hunfold2]
    have h1 := runLoop_trace_len out (r0 :: rest').length (stepState out s1)
    rw [hs2trace] at h1
    simpa using h1
  have hthead : (runLoop out ((r0 :: rest').length + 1) s1).trace.head?
      = some [pA.id, pB.id] := by
    rw [hunfold2, runLoop_trace_head out (r0 :: rest').length (stepState out s1)
      (by rw [hs2trace]; simp), hs2trace]
    rfl
  have hrun : processQueue out s0
      = finalize (runLoop out ((r0 :: rest').length + 1) s1) := by
    rw [processQueue, ← hunfold]
    rfl
  rw [hrun]
  refine ⟨?_, ?_, ?_, ?_, ?_, ?_⟩
  · rw [finalize_pages]
    exact hexA
  · rw [finalize_pages]
    intro p hp hpx
    exact (hfinalA p hp hpx).1
  · rw [finalize_pages]
    exact hexB
  · rw [finalize_pages]
    intro p hp hpx
    exact hfinalB p hp hpx
  · rw [finalize_trace]
    exact htlen
  · rw [finalize_trace]
    exact hthead

/-- Outcomes for the C4 witness: page 0 fails with the non-quota `e400`,
every other page succeeds. -/
def outC4 : Nat → Except JsError String :=
  fun pid => if pid = 0 then .error e400 else .ok "img"

/-- Witness for C4: three pages, the first failing per-job-fatally, the
second succeeding; the failed page is isolated and a second batch runs. -/
theorem claim_C4_witness :
    (∃ p ∈ (processQueue outC4 (initOrch (mkPage 0 :: mkPage 1 :: [mkPage 2]))).pages,
        p.id = (mkPage 0).id) ∧
      (∀ p ∈ (processQueue outC4 (initOrch (mkPage 0 :: mkPage 1 :: [mkPage 2]))).pages,
        p.id = (mkPage 0).id → p.status = .failed) ∧
      (∃ p ∈ (processQueue outC4 (initOrch (mkPage 0 :: mkPage 1 :: [mkPage 2]))).pages,
        p.id = (mkPage 1).id) ∧
      (∀ p ∈ (processQueue outC4 (initOrch (mkPage 0 :: mkPage 1 :: [mkPage 2]))).pages,
        p.id = (mkPage 1).id → p.status = .completed ∧ p.imageUrl = some "img") ∧
      2 ≤ (processQueue outC4 (initOrch (mkPage 0 :: mkPage 1 :: [mkPage 2]))).trace.length ∧
      (processQueue outC4 (initOrch (mkPage 0 :: mkPage 1 :: [mkPage 2]))).trace.head?
        = some [(mkPage 0).id, (mkPage 1).id] :=
  claim_C4 outC4 (mkPage 0) (mkPage 1) [mkPage 2] e400 "img"
    (by intro p hp; fin_cases hp <;> rfl)
    (by decide)
    (by simp)
    rfl
    (by decide)
    rfl

/-- Witness for C7: the two-step chain dispatch-then-success from a fresh
job, checked at its endpoint. -/
theorem claim_C7_witness :
    ((pageComplete "img" (pageDispatch ⟨0, .pending, none⟩)).imageUrl.isSome = true ↔
      (pageComplete "img" (pageDispatch ⟨0, .pending, none⟩)).status = .completed) ∧
      ((pageComplete "img" (pageDispatch ⟨0, .pending, none⟩)).status ≠ .completed →
        (pageComplete "img" (pageDispatch ⟨0, .pending, none⟩)).imageUrl = none) :=
  claim_C7 0 _
    (Relation.ReflTransGen.tail
      (Relation.ReflTransGen.tail Relation.ReflTransGen.refl (PageStep.dispatch _ rfl))
      (PageStep.success _ "img" rfl))

/-! ## The planning step (`generateBookPlan` parsing and `handleGeneratePlan`) -/

/-- Book metadata as `generateBookPlan` returns it (types.ts `BookMetadata`,
first variant — no `authorName`). -/
structure BookMetadata where
  title : String
  subtitle : String
  description : String
  keywords : List String
deriving DecidableEq, Repr

/-- One page spec of the returned plan (`{title, prompt}`). -/
structure PlanPage where
  title : String
  prompt : String
deriving DecidableEq, Repr

/-- `BookPlan` (types.ts, first variant). -/
structure BookPlan where
  metadata : BookMetadata
  pages : List PlanPage
deriving DecidableEq, Repr

/-- One raw page item of the parsed JSON payload (fields may be absent). -/
structure RawPageSpec where
  title : Option String
  description : Option String
deriving DecidableEq, Repr

/-- The parsed JSON payload `JSON.parse(response.text || '{}')` of a
successful plan call (every field may be absent). -/
structure PlanData where
  title : Option String
  subtitle : Option String
  description : Option String
  keywords : Option (List String)
  pages : Option (List RawPageSpec)
deriving DecidableEq, Repr

/-- The post-parse mapping of `generateBookPlan` (gemini.ts 79-88): every
missing field defaults to an empty string or list; a missing or empty
`pages` array yields an empty plan — the function itself does NOT fail on
zero page specs. -/
def generateBookPlan (d : PlanData) : BookPlan where
  metadata :=
    { title := d.title.getD "", subtitle := d.subtitle.getD "",
      description := d.description.getD "", keywords := d.keywords.getD [] }
  pages := (d.pages.getD []).map fun p =>
    { title := p.title.getD "", prompt := p.description.getD "" }

/-- The slice of the app state `handleGeneratePlan` reads and writes.  The
created `PageDefinition`s are represented by their orchestrator-relevant
fields (`QPage`), with the index as id (the real id
`page-${index}-${Date.now()}` distinguishes pages only by the index). -/
structure AppState where
  step : StepTag
  topic : String
  metadata : Option BookMetadata
  pages : List QPage
  error : Option ErrInfo
  loading : Bool
deriving DecidableEq, Repr

/-- Whitespace test for `String.prototype.trim` (the ASCII whitespace the
inputs can contain). -/
def isWsChar (c : Char) : Bool := c = ' ' || c = '\t' || c = '\n' || c = '\r'

/-- JavaScript `s.trim()`. -/
def jsTrim (s : String) : String :=
  String.mk (((s.data.dropWhile isWsChar).reverse.dropWhile isWsChar).reverse)

/-- The error object `throw new Error(msg)` creates, as `handleError` sees
it: `message` is set, `JSON.stringify` of a plain `Error` is `{}`. -/
def jsErrorOfThrow (msg : String) : JsError :=
  { code := none, message := some msg, stringified := "\x7b\x7d" }

/-- `handleError` (App.tsx 75-95) acting on the app state: store the
classified error and stop loading. -/
def applyHandleError (e : JsError) (s : AppState) : AppState :=
  { s with error := some (handleErrorInfo e), loading := false }

/-- `handleGeneratePlan` (App.tsx 108-139) with the settled plan call
supplied as `planResult`: bail out on a blank topic; on success with zero
pages, throw (caught by `handleError`); otherwise install the plan and the
freshly created pending jobs and move to the `planning` step.  The
`finally` clause clears `loading` on every path. -/
def handleGeneratePlan (planResult : Except JsError BookPlan) (s : AppState) : AppState :=
  if jsTrim s.topic = "" then s
  else
    let s1 : AppState := { s with loading := true, error := none }
    match planResult with
    | .error e => { applyHandleError e s1 with loading := false }
    | .ok plan =>
      if plan.pages.isEmpty then
        { applyHandleError
            (jsErrorOfThrow "AI failed to draft pages. Please try a more specific topic.")
            s1 with loading := false }
      else
        { s1 with
            step := .planning,
            metadata := some plan.metadata,
            pages := (List.range plan.pages.length).map fun i =>
              { id := i, status := .pending, imageUrl := none },
            loading := false }

/-- Claim C6 (empty-plan failure): when the remote plan call succeeds but
its payload contains zero page specs, the planning step fails with a
top-level (non-quota) error before any jobs are created — pages, metadata
and step are untouched, so no partial batch state exists — rather than
accepting an empty plan. -/
theorem claim_C6 (s : AppState) (d : PlanData)
    (htopic : jsTrim s.topic ≠ "")
    (hempty : d.pages = none ∨ d.pages = some []) :
    (handleGeneratePlan (.ok (generateBookPlan d)) s).pages = s.pages ∧
      (handleGeneratePlan (.ok (generateBookPlan d)) s).metadata = s.metadata ∧
      (handleGeneratePlan (.ok (generateBookPlan d)) s).step = s.step ∧
      (handleGeneratePlan (.ok (generateBookPlan d)) s).error
        = some { message := "AI failed to draft pages. Please try a more specific topic.",
                 isQuota := false } ∧
      (handleGeneratePlan (.ok (generateBookPlan d)) s).loading = false := by
  have hpm : (generateBookPlan d).pages = [] := by
    rcases hempty with h | h <;> simp [generateBookPlan, h]
  have hq : handleErrorIsQuota
      (jsErrorOfThrow "AI failed to draft pages. Please try a more specific topic.")
        = false := by decide
  have hinfo : handleErrorInfo
      (jsErrorOfThrow "AI failed to draft pages. Please try a more specific topic.")
        = { message := "AI failed to draft pages. Please try a more specific topic.",
            isQuota := false } := by
    rw [handleErrorInfo, if_neg (by rw [hq]; intro hcon; cases hcon)]
    rfl
  simp [handleGeneratePlan, htopic, hpm, applyHandleError, hinfo]

/-- Witness for C6 at a concrete state and an empty payload. -/
theorem claim_C6_witness :
    (handleGeneratePlan
        (.ok (generateBookPlan
          { title := some "T", subtitle := none, description := none,
            keywords := none, pages := some [] }))
        { step := .input, topic := "Space Cats", metadata := none, pages := [],
          error := none, loading := false }).pages = [] ∧
      (handleGeneratePlan
        (.ok (generateBookPlan
          { title := some "T", subtitle := none, description := none,
            keywords := none, pages := some [] }))
        { step := .input, topic := "Space Cats", metadata := none, pages := [],
          error := none, loading := false }).metadata = none ∧
      (handleGeneratePlan
        (.ok (generateBookPlan
          { title := some "T", subtitle := none, description := none,
            keywords := none, pages := some [] }))
        { step := .input, topic := "Space Cats", metadata := none, pages := [],
          error := none, loading := false }).step = .input ∧
      (handleGeneratePlan
        (.ok (generateBookPlan
          { title := some "T", subtitle := none, description := none,
            keywords := none, pages := some [] }))
        { step := .input, topic := "Space Cats", metadata := none, pages := [],
          error := none, loading := false }).error
        = some { message := "AI failed to draft pages. Please try a more specific topic.",
                 isQuota := false } ∧
      (handleGeneratePlan
        (.ok (generateBookPlan
          { title := some "T", subtitle := none, description := none,
            keywords := none, pages := some [] }))
        { step := .input, topic := "Space Cats", metadata := none, pages := [],
          error := none, loading := false }).loading = false :=
  claim_C6
    { step := .input, topic := "Space Cats", metadata := none, pages := [],
      error := none, loading := false }
    { title := some "T", subtitle := none, description := none,
      keywords := none, pages := some [] }
    (by decide) (Or.inr rfl)

end JockerStudio
